import Mathlib

/-!
Verification development for the clang-tags daemon (src/main.cxx and
src/clangTags/watch/inotify.cxx), shallowly embedding the watcher loop,
the server loop, the update-engine contract and the command bindings,
and proving the claims of the spec about them.
-/

set_option maxHeartbeats 1000000

namespace ClangTags

/-- Modelled from the spec: the WatchTable (class InotifyMap, whose source is
not under src/) maps fileName to watchHandle with bidirectional lookup;
entries are added, never removed. Represented as an association list,
newest entry first. -/
def InotifyMap := List (String × Int)

/-- Modelled from the spec: membership test on the fileName side of the
WatchTable, used by the rescan to skip already watched files. -/
def InotifyMap.contains (m : InotifyMap) (f : String) : Bool :=
  List.any m (fun p => p.1 == f)

/-- Modelled from the spec: record a fileName/handle binding in the WatchTable. -/
def InotifyMap.add (m : InotifyMap) (f : String) (wd : Int) : InotifyMap :=
  (f, wd) :: m

/-- Modelled from the spec: reverse lookup handle to fileName, used only for
logging when decoding events. Returns the empty string when the handle is
unknown. -/
def InotifyMap.fileName (m : InotifyMap) (wd : Int) : String :=
  match List.find? (fun p => p.2 == wd) m with
  | some p => p.1
  | none => ""

/-- The fileName column of the WatchTable. -/
def InotifyMap.keys (m : InotifyMap) : List String := List.map Prod.fst m

/-- Embeds Inotify::update_ (src/clangTags/watch/inotify.cxx lines 33-52).
`files` is the list returned by storage_.listFiles(); `reg` gives the value
returned by inotify_add_watch for a file (-1 on failure). For each listed
file: skip it when the map already contains it; otherwise call
inotify_add_watch and add the (fileName, wd) pair to the map - note the
source adds the pair even when wd = -1. Returns the updated map together
with the list of fileNames for which inotify_add_watch was called, in call
order. -/
def update_ (m : InotifyMap) : List String → (String → Int) → InotifyMap × List String
  | [], _ => (m, [])
  | fileName :: rest, reg =>
    if m.contains fileName then
      update_ m rest reg
    else
      let m1 := m.add fileName (reg fileName)
      let r := update_ m1 rest reg
      (r.1, fileName :: r.2)

/-- One record of the inotify event stream: fixed-size header
(wd, mask, cookie, name length) followed by the name bytes
(struct inotify_event in src/clangTags/watch/inotify.cxx line 92). -/
structure InotifyEvent where
  wd : Int
  mask : Nat
  cookie : Nat
  name : String

/-- Observable actions of one iteration of the watcher loop, in order. -/
inductive WatchAction
  | rescan
  | logModification (fileName : String)
  | indexRequest
  deriving DecidableEq

/-- State of the watcher thread: the updateRequested_ flag, the WatchTable,
the number of updateThread_.index() calls issued so far, and the ordered
trace of observable actions. -/
structure WatcherState where
  updateRequested : Bool
  inotifyMap : InotifyMap
  indexCalls : Nat
  trace : List WatchAction

/-- Outcome of one poll/read step of the watcher loop
(src/clangTags/watch/inotify.cxx lines 76-101). -/
inductive PollOutcome
  /-- poll() returned -1. -/
  | pollError
  /-- poll() returned without POLLIN set (timeout, no pending data). -/
  | noData
  /-- POLLIN was set but read() returned len < 1. -/
  | readFailed
  /-- POLLIN was set and read() returned the given decoded records
  (len >= 1). -/
  | dataReady (events : List InotifyEvent)

/-- Embeds one iteration of the watcher loop Inotify::operator()
(src/clangTags/watch/inotify.cxx lines 62-103): first, if updateRequested_
is set, rescan the watch list via update_ and clear the flag; then poll:
on pending data, decode every record (logging the fileName resolved from
the WatchTable) and issue exactly one updateThread_.index() call after the
decode loop. -/
def watchIteration (s : WatcherState) (files : List String) (reg : String → Int)
    (poll : PollOutcome) : WatcherState :=
  let s1 :=
    if s.updateRequested then
      { s with inotifyMap := (update_ s.inotifyMap files reg).1,
               updateRequested := false,
               trace := s.trace ++ [WatchAction.rescan] }
    else s
  match poll with
  | PollOutcome.pollError => s1
  | PollOutcome.noData => s1
  | PollOutcome.readFailed => s1
  | PollOutcome.dataReady events =>
    { s1 with
      indexCalls := s1.indexCalls + 1,
      trace := s1.trace
        ++ List.map (fun e => WatchAction.logModification (s1.inotifyMap.fileName e.wd)) events
        ++ [WatchAction.indexRequest] }

/-- Embeds Inotify::Inotify (src/clangTags/watch/inotify.cxx lines 11-21):
the constructor initializes updateRequested_ to true; the WatchTable starts
empty and no index call has been issued. -/
def initialWatcherState : WatcherState :=
  { updateRequested := true, inotifyMap := [], indexCalls := 0, trace := [] }

/-! Lemmas about update_. -/

theorem InotifyMap.contains_iff (m : InotifyMap) (f : String) :
    m.contains f = true ↔ f ∈ m.keys := by
  unfold InotifyMap.contains InotifyMap.keys
  rw [List.any_eq_true]
  constructor
  · rintro ⟨p, hp, hf⟩
    exact List.mem_map.mpr ⟨p, hp, by simpa using hf⟩
  · intro h
    obtain ⟨p, hp, hf⟩ := List.mem_map.mp h
    exact ⟨p, hp, by simp [hf]⟩

theorem update_keys (m : InotifyMap) (files : List String) (reg : String → Int) :
    (update_ m files reg).1.keys = (update_ m files reg).2.reverse ++ m.keys := by
  induction files generalizing m with
  | nil => simp [update_]
  | cons f rest ih =>
    by_cases h : m.contains f = true
    · simp only [update_, h, if_pos]
      exact ih m
    · simp only [update_, h, if_neg h]
      have := ih (m.add f (reg f))
      simp only [InotifyMap.add, InotifyMap.keys, List.map] at this ⊢
      simp [this, InotifyMap.keys]

theorem update_contains_mono (m : InotifyMap) (files : List String) (reg : String → Int)
    (f : String) (h : m.contains f = true) :
    (update_ m files reg).1.contains f = true := by
  rw [InotifyMap.contains_iff] at h ⊢
  rw [update_keys]
  exact List.mem_append_right _ h

theorem update_calls_not_in (m : InotifyMap) (files : List String) (reg : String → Int) :
    ∀ f ∈ (update_ m files reg).2, m.contains f = false := by
  induction files generalizing m with
  | nil => simp [update_]
  | cons g rest ih =>
    by_cases h : m.contains g = true
    · simp only [update_, h, if_pos]
      exact ih m
    · simp only [update_, h, if_neg h]
      intro f hf
      rcases List.mem_cons.mp hf with rfl | hf
      · simpa using h
      · have := ih (m.add g (reg g)) f hf
        simp only [InotifyMap.contains, InotifyMap.add, List.any] at this
        rcases Bool.or_eq_false_iff.mp this with ⟨_, h2⟩
        exact h2

theorem update_calls_nodup (m : InotifyMap) (files : List String) (reg : String → Int) :
    (update_ m files reg).2.Nodup := by
  induction files generalizing m with
  | nil => simp [update_]
  | cons g rest ih =>
    by_cases h : m.contains g = true
    · simp only [update_, h, if_pos]
      exact ih m
    · simp only [update_, h, if_neg h]
      refine List.nodup_cons.mpr ⟨?_, ih (m.add g (reg g))⟩
      intro hg
      have := update_calls_not_in (m.add g (reg g)) rest reg g hg
      simp [InotifyMap.contains, InotifyMap.add] at this

theorem update_contains_of_mem (m : InotifyMap) (files : List String) (reg : String → Int) :
    ∀ f ∈ files, (update_ m files reg).1.contains f = true := by
  induction files generalizing m with
  | nil => simp
  | cons g rest ih =>
    intro f hf
    rcases List.mem_cons.mp hf with rfl | hf
    · by_cases h : m.contains f = true
      · simp only [update_, h, if_pos]
        exact update_contains_mono m rest reg f h
      · simp only [update_, h, if_neg h]
        exact update_contains_mono _ rest reg f (by simp [InotifyMap.contains, InotifyMap.add])
    · by_cases h : m.contains g = true
      · simp only [update_, h, if_pos]
        exact ih m f hf
      · simp only [update_, h, if_neg h]
        exact ih _ f hf

/-! Sequences of rescans, for the idempotent-registration invariant. -/

/-- Input of one rescan: the file list returned by storage_.listFiles() and
the outcome of inotify_add_watch for each file at that time. -/
structure ScanInput where
  files : List String
  reg : String → Int

/-- A sequence of rescans (repeated executions of Inotify::update_ over the
watcher lifetime), returning the final WatchTable and the concatenated
list of fileNames passed to inotify_add_watch across all rescans. -/
def runScans (m : InotifyMap) : List ScanInput → InotifyMap × List String
  | [] => (m, [])
  | sc :: rest =>
    let r1 := update_ m sc.files sc.reg
    let r2 := runScans r1.1 rest
    (r2.1, r1.2 ++ r2.2)

theorem update_keys_nodup (m : InotifyMap) (files : List String) (reg : String → Int)
    (h : m.keys.Nodup) : (update_ m files reg).1.keys.Nodup := by
  rw [update_keys]
  rw [List.nodup_append]
  refine ⟨List.nodup_reverse.mpr (update_calls_nodup m files reg), h, ?_⟩
  intro f hf hfm
  have hcall : f ∈ (update_ m files reg).2 := List.mem_reverse.mp hf
  have := update_calls_not_in m files reg f hcall
  rw [← InotifyMap.contains_iff] at hfm
  rw [this] at hfm
  exact Bool.false_ne_true hfm

theorem runScans_invariant (scans : List ScanInput) (m : InotifyMap)
    (h : m.keys.Nodup) :
    (runScans m scans).1.keys.Nodup ∧ (runScans m scans).2.Nodup ∧
      ∀ f ∈ (runScans m scans).2, m.contains f = false := by
  induction scans generalizing m with
  | nil => simpa [runScans] using h
  | cons sc rest ih =>
    have h1 : (update_ m sc.files sc.reg).1.keys.Nodup := update_keys_nodup m sc.files sc.reg h
    obtain ⟨hk, hn, hns⟩ := ih (update_ m sc.files sc.reg).1 h1
    refine ⟨hk, ?_, ?_⟩
    · show ((update_ m sc.files sc.reg).2 ++ (runScans (update_ m sc.files sc.reg).1 rest).2).Nodup
      rw [List.nodup_append]
      refine ⟨update_calls_nodup m sc.files sc.reg, hn, ?_⟩
      intro f hf1 hf2
      have hmem : f ∈ (update_ m sc.files sc.reg).1.keys := by
        rw [update_keys]
        exact List.mem_append_left _ (List.mem_reverse.mpr hf1)
      rw [← InotifyMap.contains_iff] at hmem
      have := hns f hf2
      rw [this] at hmem
      exact Bool.false_ne_true hmem
    · intro f hf
      show m.contains f = false
      rcases List.mem_append.mp hf with hf1 | hf2
      · exact update_calls_not_in m sc.files sc.reg f hf1
      · have h2 := hns f hf2
        by_contra hne
        have hc : m.contains f = true := by
          cases hx : m.contains f
          · exact absurd hx hne
          · rfl
        have : (update_ m sc.files sc.reg).1.contains f = true :=
          update_contains_mono m sc.files sc.reg f hc
        rw [h2] at this
        exact Bool.false_ne_true this

/-! The Update Engine contract and the index command. -/

/-- Modelled from the spec: the Update Engine (Update::Thread, whose source is
not under src/) keeps a monotonically increasing generation counter and a
requestedGeneration; RequestRebuild sets requestedGeneration to
generation + 1 unless it is already at least that. -/
structure EngineState where
  generation : Nat
  requestedGeneration : Nat
  deriving DecidableEq

/-- Modelled from the spec: RequestRebuild (Update::Thread::index), idempotent
and non-blocking. -/
def requestRebuild (e : EngineState) : EngineState :=
  { e with requestedGeneration := max e.requestedGeneration (e.generation + 1) }

/-- Modelled from the spec: the target generation captured by WaitForRebuild
(Update::Thread::wait) at call time. -/
def waitTarget (e : EngineState) : Nat :=
  max (e.generation + 1) e.requestedGeneration

/-- Modelled from the spec: one pass of the Run() loop of the engine — if a
rebuild is pending it runs to completion and increments the generation,
otherwise the state is unchanged. -/
def engineStep (e : EngineState) : EngineState :=
  if e.generation < e.requestedGeneration then
    { e with generation := e.generation + 1 }
  else e

/-- The first response line of IndexCommand::run (src/main.cxx line 101). -/
def waitingMsg : String := "Waiting for the index to be rebuilt..."

/-- The completion acknowledgment of IndexCommand::run (src/main.cxx line 103). -/
def doneMsg : String := "Done."

/-- Program counter of IndexCommand::run (src/main.cxx lines 99-104):
before update_.index(); blocked in update_.wait() on a captured target
generation; returned from wait; after writing the acknowledgment. -/
inductive CmdPhase
  | start
  | waiting (target : Nat)
  | waited
  | finished
  deriving DecidableEq

/-- Combined state of the engine thread and the thread executing
IndexCommand::run, with the ordered response lines written so far. -/
structure IndexSys where
  engine : EngineState
  phase : CmdPhase
  output : List String
  deriving DecidableEq

/-- Whose turn it is in an interleaving of the engine thread and the command. -/
inductive Turn
  | engine
  | command
  deriving DecidableEq

/-- One interleaved step: the engine thread performs one pass of its Run()
loop, or the command makes progress through IndexCommand::run
(src/main.cxx lines 99-104): call update_.index() and write the waiting
line, then block in update_.wait() until the generation of the engine reaches
the captured target, then write the completion acknowledgment. -/
def sysStep (s : IndexSys) : Turn → IndexSys
  | Turn.engine => { s with engine := engineStep s.engine }
  | Turn.command =>
    match s.phase with
    | CmdPhase.start =>
      let e := requestRebuild s.engine
      { engine := e,
        phase := CmdPhase.waiting (waitTarget e),
        output := s.output ++ [waitingMsg] }
    | CmdPhase.waiting t =>
      if t ≤ s.engine.generation then { s with phase := CmdPhase.waited } else s
    | CmdPhase.waited =>
      { s with phase := CmdPhase.finished, output := s.output ++ [doneMsg] }
    | CmdPhase.finished => s

/-- Run an interleaving of engine and command turns. -/
def sysRun (s : IndexSys) (ts : List Turn) : IndexSys := List.foldl sysStep s ts

/-- Invariant tying the response lines of IndexCommand::run to the
generation: the completion acknowledgment exists only in the finished
phase, which is reachable only after the generation has passed the value
it had when the command started. -/
def IndexInv (g0 : Nat) (s : IndexSys) : Prop :=
  g0 ≤ s.engine.generation ∧
  match s.phase with
  | CmdPhase.start => s.output = []
  | CmdPhase.waiting t => s.output = [waitingMsg] ∧ g0 + 1 ≤ t
  | CmdPhase.waited => s.output = [waitingMsg] ∧ g0 + 1 ≤ s.engine.generation
  | CmdPhase.finished => s.output = [waitingMsg, doneMsg] ∧ g0 + 1 ≤ s.engine.generation

theorem engineStep_generation_le (e : EngineState) :
    e.generation ≤ (engineStep e).generation := by
  unfold engineStep
  by_cases h : e.generation < e.requestedGeneration
  · simp [h]
  · simp [h]

theorem sysStep_inv (g0 : Nat) (s : IndexSys) (t : Turn) (h : IndexInv g0 s) :
    IndexInv g0 (sysStep s t) := by
  obtain ⟨e, ph, out⟩ := s
  obtain ⟨hg, hp⟩ := h
  cases t with
  | engine =>
    have hmono := engineStep_generation_le e
    cases ph with
    | start => exact ⟨le_trans hg hmono, hp⟩
    | waiting t => exact ⟨le_trans hg hmono, hp⟩
    | waited => exact ⟨le_trans hg hmono, hp.1, le_trans hp.2 hmono⟩
    | finished => exact ⟨le_trans hg hmono, hp.1, le_trans hp.2 hmono⟩
  | command =>
    cases ph with
    | start =>
      refine ⟨hg, ?_, ?_⟩
      · show out ++ [waitingMsg] = [waitingMsg]
        simp [show out = [] from hp]
      · show g0 + 1 ≤ waitTarget (requestRebuild e)
        exact le_trans (Nat.succ_le_succ hg) (le_max_left _ _)
    | waiting t =>
      show IndexInv g0
        (if t ≤ e.generation then ⟨e, CmdPhase.waited, out⟩ else ⟨e, CmdPhase.waiting t, out⟩)
      by_cases hle : t ≤ e.generation
      · rw [if_pos hle]
        exact ⟨hg, hp.1, le_trans hp.2 hle⟩
      · rw [if_neg hle]
        exact ⟨hg, hp⟩
    | waited =>
      refine ⟨hg, ?_, hp.2⟩
      show out ++ [doneMsg] = [waitingMsg, doneMsg]
      simp [show out = [waitingMsg] from hp.1]
    | finished => exact ⟨hg, hp⟩

theorem sysRun_inv (g0 : Nat) (ts : List Turn) (s : IndexSys) (h : IndexInv g0 s) :
    IndexInv g0 (sysRun s ts) := by
  induction ts generalizing s with
  | nil => exact h
  | cons t ts ih => exact ih (sysStep s t) (sysStep_inv g0 s t h)

/-! The command registry, the exit command and the server loop. -/

/-- The commands registered in main (src/main.cxx lines 315-321). -/
inductive Command
  | load
  | config
  | index
  | find
  | grep
  | complete
  | exit
  deriving DecidableEq

/-- How the dispatch of one request ends. Modelled from the spec: per-request
recoverable errors are answered with an error response and end normally; the
termination signal of the exit command and any other unexpected exception
propagate out of dispatch. -/
inductive DispatchResult
  | normal
  | throwTermination
  | throwOther
  deriving DecidableEq

/-- Embeds ExitCommand::run (src/main.cxx lines 233-236): it writes
"Exiting..." and throws, raising the termination signal. -/
def ExitCommand.run : List String × DispatchResult :=
  (["Exiting..."], DispatchResult.throwTermination)

/-- Modelled from the spec: dispatching a command executes its run hook; only
the exit command raises the termination signal, the other commands complete
their request/response cycle normally. -/
def dispatchOne (c : Command) : DispatchResult :=
  match c with
  | Command.exit => ExitCommand.run.2
  | _ => DispatchResult.normal

/-- What one turn of the accept loop in Serve::operator() observes
(src/main.cxx lines 264-271): either accept set the error code, or a
connection was accepted and its dispatch ended with the given result. -/
inductive AcceptOutcome
  | acceptError
  | conn (d : DispatchResult)
  deriving DecidableEq

/-- Why Serve::operator() ended. -/
inductive ExitReason
  | termination
  | otherFailure
  deriving DecidableEq

/-- Embeds the accept loop of Serve::operator() (src/main.cxx lines 264-271)
on a finite prefix of accept outcomes: when accept reports an error the
connection is skipped and the loop continues; a normal dispatch also
continues the loop; an exception propagating out of dispatch ends the
loop. The result is none when the given outcomes are exhausted with the
loop still running. -/
def serveLoop : List AcceptOutcome → Option ExitReason
  | [] => none
  | AcceptOutcome.acceptError :: rest => serveLoop rest
  | AcceptOutcome.conn DispatchResult.normal :: rest => serveLoop rest
  | AcceptOutcome.conn DispatchResult.throwTermination :: _ => some ExitReason.termination
  | AcceptOutcome.conn DispatchResult.throwOther :: _ => some ExitReason.otherFailure

/-- Whether an accept outcome is a dispatch from which an exception
propagates. -/
def throwsOut : AcceptOutcome → Bool
  | AcceptOutcome.conn DispatchResult.throwTermination => true
  | AcceptOutcome.conn DispatchResult.throwOther => true
  | _ => false

/-- Presence of the two discovery files in the working directory. -/
structure ServeFS where
  pidFile : Bool
  sockFile : Bool
  deriving DecidableEq

/-- Filesystem operations performed over the lifetime of the Serve object. -/
inductive FsOp
  | createPid
  | createSock
  | unlinkSock
  | unlinkPid
  deriving DecidableEq

/-- Effect of one filesystem operation on the discovery files. -/
def applyOp (fs : ServeFS) : FsOp → ServeFS
  | FsOp.createPid => { fs with pidFile := true }
  | FsOp.createSock => { fs with sockFile := true }
  | FsOp.unlinkSock => { fs with sockFile := false }
  | FsOp.unlinkPid => { fs with pidFile := false }

/-- Apply a sequence of filesystem operations in order. -/
def applyOps (fs : ServeFS) (ops : List FsOp) : ServeFS := List.foldl applyOp fs ops

/-- Embeds Serve::Serve (src/main.cxx lines 242-250): the constructor writes
the pid file. -/
def Serve.constructOps : List FsOp := [FsOp.createPid]

/-- Embeds the start of Serve::operator() (src/main.cxx lines 261-263):
binding the acceptor to the local endpoint creates the socket path file. -/
def Serve.bindOps : List FsOp := [FsOp.createSock]

/-- Embeds Serve::~Serve (src/main.cxx lines 252-256): the destructor unlinks
the socket path file then the pid file. -/
def Serve.destructOps : List FsOp := [FsOp.unlinkSock, FsOp.unlinkPid]

/-- Embeds the serve block of main (src/main.cxx lines 328-332): construct the
Serve object (writing the pid file), run the accept loop (binding the
socket first); when the loop ends by an exception, stack unwinding runs
Serve::~Serve, which unlinks both discovery files, and the surrounding
catch-all swallows the exception. Returns none while the loop is still
running, otherwise the filesystem state after cleanup together with the
reason the loop ended. -/
def serveSession (fs : ServeFS) (outs : List AcceptOutcome) :
    Option (ServeFS × ExitReason) :=
  let fs1 := applyOps fs Serve.constructOps
  let fs2 := applyOps fs1 Serve.bindOps
  match serveLoop outs with
  | none => none
  | some r => some (applyOps fs2 Serve.destructOps, r)

/-! The main entry point. -/

/-- Embeds the failure path of Inotify::Inotify (src/clangTags/watch/inotify.cxx
lines 16-20): fdRes is the return of inotify_init(); the constructor
throws when it is -1, otherwise the watcher holds the descriptor. -/
def inotifyConstruct (fdRes : Int) : Except String Int :=
  if fdRes = -1 then Except.error "inotify" else Except.ok fdRes

/-- Observable outcome of one run of main (src/main.cxx lines 280-345):
the process exit code, the discovery-file state, whether the server was
started (a socket bound and connections accepted), and whether a request
was parsed from standard input. -/
structure MainResult where
  exitCode : Nat
  fs : ServeFS
  served : Bool
  stdinParsed : Bool
  deriving DecidableEq

/-- Embeds main (src/main.cxx lines 280-345): after the update-engine thread
is started, the watcher is constructed — if inotify_init failed the
exception thrown by the constructor reaches the catch(std::exception) handler and
main returns EXIT_FAILURE without ever parsing stdin, binding a socket or
writing a discovery file. Otherwise, with the stdin option the parser
reads from standard input and no Serve object is ever constructed; without
it the serve block runs. Returns none when the serve loop is still
running on the given outcomes. -/
def mainRun (stdinOpt : Bool) (fdRes : Int) (outs : List AcceptOutcome)
    (fs0 : ServeFS) : Option MainResult :=
  match inotifyConstruct fdRes with
  | Except.error _ =>
    some { exitCode := 1, fs := fs0, served := false, stdinParsed := false }
  | Except.ok _ =>
    if stdinOpt then
      some { exitCode := 0, fs := fs0, served := false, stdinParsed := true }
    else
      match serveSession fs0 outs with
      | none => none
      | some (fs1, _) =>
        some { exitCode := 0, fs := fs1, served := true, stdinParsed := false }

/-! Options of the find command and the dispatch binding. -/

/-- The bound option cells of the find command (FindDefinition::Args in
src/main.cxx lines 123-137). -/
structure FindArgs where
  fileName : String
  offset : Int
  mostSpecific : Bool
  diagnostics : Bool
  fromIndex : Bool
  deriving DecidableEq

/-- Embeds FindCommand::defaults (src/main.cxx lines 140-146). -/
def FindCommand.defaults : FindArgs :=
  { fileName := "", offset := 0, mostSpecific := false,
    diagnostics := true, fromIndex := true }

/-- A JSON-typed option value carried by a request. -/
inductive JsonValue
  | str (s : String)
  | int (n : Int)
  | bool (b : Bool)
  deriving DecidableEq

/-- Modelled from the spec: decoding one supplied (optionName, value) pair
into the bound cells of the find command, dispatching on the expected
type; the declared options are those of FindCommand (src/main.cxx lines
122-137). Returns none for an unknown option or a type mismatch. -/
def FindCommand.bindOption (a : FindArgs) (name : String) (v : JsonValue) :
    Option FindArgs :=
  match name, v with
  | "file", JsonValue.str s => some { a with fileName := s }
  | "offset", JsonValue.int n => some { a with offset := n }
  | "mostSpecific", JsonValue.bool b => some { a with mostSpecific := b }
  | "diagnostics", JsonValue.bool b => some { a with diagnostics := b }
  | "fromIndex", JsonValue.bool b => some { a with fromIndex := b }
  | _, _ => none

/-- Modelled from the spec: dispatching a find request first invokes the
ResetDefaults hook of the command (FindCommand::defaults), discarding whatever
the bound cells held after the previous request, then binds each supplied
pair in order; options absent from the request keep their default. -/
def FindCommand.dispatchBind (prior : FindArgs)
    (req : List (String × JsonValue)) : Option FindArgs :=
  let _ := prior
  List.foldlM (fun a p => FindCommand.bindOption a p.1 p.2) FindCommand.defaults req

/-! Helper lemmas for the server loop. -/

theorem serveLoop_skips_benign (pre : List AcceptOutcome)
    (h : ∀ o ∈ pre, o = AcceptOutcome.acceptError ∨ o = AcceptOutcome.conn DispatchResult.normal)
    (rest : List AcceptOutcome) :
    serveLoop (pre ++ AcceptOutcome.conn DispatchResult.throwTermination :: rest) =
      some ExitReason.termination := by
  induction pre with
  | nil => rfl
  | cons o pre ih =>
    have htail : ∀ x ∈ pre, x = AcceptOutcome.acceptError ∨ x = AcceptOutcome.conn DispatchResult.normal :=
      fun x hx => h x (List.mem_cons_of_mem _ hx)
    rcases h o (List.mem_cons_self o pre) with rfl | rfl
    · exact ih htail
    · exact ih htail

theorem serveSession_eq_some (fs : ServeFS) (outs : List AcceptOutcome) (r : ExitReason)
    (h : serveLoop outs = some r) :
    serveSession fs outs = some (⟨false, false⟩, r) := by
  unfold serveSession
  rw [h]
  rfl

theorem serveSession_eq_none (fs : ServeFS) (outs : List AcceptOutcome)
    (h : serveLoop outs = none) :
    serveSession fs outs = none := by
  unfold serveSession
  rw [h]

/-! The claims. -/

/-- C1: for every wake-up of the watcher event loop in which poll reports
pending inotify data, the watcher issues exactly one rebuild request
(updateThread_.index()) to the Update Engine, regardless of how many event
records the read decodes - bursts of modifications within one poll interval
coalesce into a single rebuild trigger. -/
theorem watcher_coalesces_events_per_wakeup (s : WatcherState) (files : List String)
    (reg : String → Int) (events : List InotifyEvent) :
    (watchIteration s files reg (PollOutcome.dataReady events)).indexCalls =
      s.indexCalls + 1 := by
  unfold watchIteration
  by_cases h : s.updateRequested <;> simp [h]

/-- C2: over every sequence of rescans starting from the empty WatchTable,
each filename keeps at most one entry in the table, and inotify_add_watch
is never called twice for the same filename. -/
theorem watch_registration_idempotent (scans : List ScanInput) :
    (runScans ([] : InotifyMap) scans).1.keys.Nodup ∧
      (runScans ([] : InotifyMap) scans).2.Nodup := by
  have h := runScans_invariant scans [] (by simp [InotifyMap.keys])
  exact ⟨h.1, h.2.1⟩

/-- C3 counterexample: with a single file whose registration fails
(inotify_add_watch returns -1), the first rescan attempts the registration,
but the next rescan over the same candidate list makes no registration
attempt at all - the code adds the file to the WatchTable even on failure,
so the claim that the next rescan attempts to register it again is false. -/
theorem failed_watch_not_retried_cex :
    (update_ ([] : InotifyMap) ["a"] (fun _ => (-1 : Int))).2 = ["a"] ∧
    (update_ (update_ ([] : InotifyMap) ["a"] (fun _ => (-1 : Int))).1 ["a"]
      (fun _ => (-1 : Int))).2 = [] := by
  constructor <;> rfl

/-- C3 (amended): when registering an OS-level modify-watch fails during a
rescan, the failure is logged and the file remains unwatched, but the file
is still recorded in the WatchTable (with the invalid handle), so every
later rescan skips it and never attempts to register it again. -/
theorem failed_watch_recorded_and_skipped (m : InotifyMap) (files : List String)
    (reg : String → Int) (f : String) (hf : f ∈ (update_ m files reg).2)
    (_hfail : reg f = -1) :
    (update_ m files reg).1.contains f = true ∧
    ∀ (files2 : List String) (reg2 : String → Int),
      f ∉ (update_ (update_ m files reg).1 files2 reg2).2 := by
  have hmem : (update_ m files reg).1.contains f = true := by
    rw [InotifyMap.contains_iff, update_keys]
    exact List.mem_append_left _ (List.mem_reverse.mpr hf)
  refine ⟨hmem, ?_⟩
  intro files2 reg2 hf2
  have := update_calls_not_in (update_ m files reg).1 files2 reg2 f hf2
  rw [this] at hmem
  exact Bool.false_ne_true hmem

/-- Witness for the amended C3 at a concrete input: file "a", registration
failing with -1. -/
theorem failed_watch_recorded_and_skipped_witness :
    (update_ ([] : InotifyMap) ["a"] (fun _ => (-1 : Int))).1.contains "a" = true ∧
    ∀ (files2 : List String) (reg2 : String → Int),
      "a" ∉ (update_ (update_ ([] : InotifyMap) ["a"] (fun _ => (-1 : Int))).1 files2 reg2).2 :=
  failed_watch_recorded_and_skipped [] ["a"] (fun _ => (-1 : Int)) "a" (by decide) rfl

/-- C4: in every interleaving of the engine thread with an execution of the
index command, the completion acknowledgment "Done." appears in the output
only after a rebuild has completed past the generation current when the
command started, and then the response lines are exactly the waiting line
followed by the acknowledgment. -/
theorem index_command_responds_after_rebuild (e0 : EngineState) (ts : List Turn)
    (h : doneMsg ∈ (sysRun { engine := e0, phase := CmdPhase.start, output := [] } ts).output) :
    e0.generation <
      (sysRun { engine := e0, phase := CmdPhase.start, output := [] } ts).engine.generation ∧
    (sysRun { engine := e0, phase := CmdPhase.start, output := [] } ts).output =
      [waitingMsg, doneMsg] := by
  have hinv := sysRun_inv e0.generation ts
    { engine := e0, phase := CmdPhase.start, output := [] } ⟨le_refl _, rfl⟩
  obtain ⟨hg, hp⟩ := hinv
  cases hph : (sysRun { engine := e0, phase := CmdPhase.start, output := [] } ts).phase with
  | start =>
    rw [hph] at hp
    rw [hp] at h
    simp at h
  | waiting t =>
    rw [hph] at hp
    rw [hp.1] at h
    simp [waitingMsg, doneMsg] at h
  | waited =>
    rw [hph] at hp
    rw [hp.1] at h
    simp [waitingMsg, doneMsg] at h
  | finished =>
    rw [hph] at hp
    exact ⟨Nat.lt_of_succ_le hp.2, hp.1⟩

/-- Witness for C4 at a concrete interleaving: the command requests the
rebuild, the engine completes it, the command observes it and acknowledges. -/
theorem index_command_responds_after_rebuild_witness :
    doneMsg ∈ (sysRun { engine := ⟨0, 0⟩, phase := CmdPhase.start, output := [] }
        [Turn.command, Turn.engine, Turn.command, Turn.command]).output ∧
    ((⟨0, 0⟩ : EngineState).generation <
        (sysRun { engine := ⟨0, 0⟩, phase := CmdPhase.start, output := [] }
          [Turn.command, Turn.engine, Turn.command, Turn.command]).engine.generation ∧
      (sysRun { engine := ⟨0, 0⟩, phase := CmdPhase.start, output := [] }
          [Turn.command, Turn.engine, Turn.command, Turn.command]).output =
        [waitingMsg, doneMsg]) :=
  ⟨by decide, index_command_responds_after_rebuild ⟨0, 0⟩
    [Turn.command, Turn.engine, Turn.command, Turn.command] (by decide)⟩

/-- C5: after any run of benign connections, dispatching the exit command
raises the termination signal, which propagates so that the serve loop ends
with the termination reason, and the session ends with both discovery files
(pid file and socket path file) removed; moreover every ended session,
whatever its exit reason, ends with both files removed. -/
theorem exit_command_stops_server_and_removes_files (fs0 : ServeFS)
    (pre rest : List AcceptOutcome)
    (h : ∀ o ∈ pre, o = AcceptOutcome.acceptError ∨ o = AcceptOutcome.conn DispatchResult.normal) :
    (∃ fs1, serveSession fs0 (pre ++ AcceptOutcome.conn (dispatchOne Command.exit) :: rest) =
        some (fs1, ExitReason.termination) ∧ fs1.pidFile = false ∧ fs1.sockFile = false) ∧
    (∀ outs fs1 r, serveSession fs0 outs = some (fs1, r) →
      fs1.pidFile = false ∧ fs1.sockFile = false) := by
  constructor
  · refine ⟨⟨false, false⟩, ?_, rfl, rfl⟩
    exact serveSession_eq_some fs0 _ ExitReason.termination (serveLoop_skips_benign pre h rest)
  · intro outs fs1 r hsr
    cases hlo : serveLoop outs with
    | none =>
      rw [serveSession_eq_none fs0 outs hlo] at hsr
      exact absurd hsr (by simp)
    | some r2 =>
      rw [serveSession_eq_some fs0 outs r2 hlo] at hsr
      have h1 : (⟨false, false⟩ : ServeFS) = fs1 := congrArg Prod.fst (Option.some.inj hsr)
      rw [← h1]
      exact ⟨rfl, rfl⟩

/-- Witness for C5 at a concrete input: one failed accept, then the exit
command. -/
theorem exit_command_stops_server_and_removes_files_witness :
    (∃ fs1, serveSession ⟨false, false⟩
        ([AcceptOutcome.acceptError] ++ AcceptOutcome.conn (dispatchOne Command.exit) :: []) =
        some (fs1, ExitReason.termination) ∧ fs1.pidFile = false ∧ fs1.sockFile = false) ∧
    (∀ outs fs1 r, serveSession ⟨false, false⟩ outs = some (fs1, r) →
      fs1.pidFile = false ∧ fs1.sockFile = false) :=
  exit_command_stops_server_and_removes_files ⟨false, false⟩
    [AcceptOutcome.acceptError] [] (by decide)

/-- C6 counterexample: an error returned by accept does not end the serve
loop - after one accept error the loop is still running (no return), and a
later connection is still dispatched; so the claim that an accept error
causes the serve loop to end rather than loop forever is false. -/
theorem accept_error_does_not_stop_loop_cex :
    serveLoop [AcceptOutcome.acceptError] = none ∧
    serveLoop [AcceptOutcome.acceptError, AcceptOutcome.conn DispatchResult.throwTermination] =
      some ExitReason.termination := by
  exact ⟨rfl, rfl⟩

/-- C6 (amended): the serve loop skips a connection whose accept reported an
error and keeps looping; it returns exactly when an exception propagates
out of dispatch - the termination signal of the exit command or any other
uncaught failure. -/
theorem serve_returns_only_on_dispatch_exception (outs : List AcceptOutcome) :
    (serveLoop (AcceptOutcome.acceptError :: outs) = serveLoop outs) ∧
    ((serveLoop outs).isSome = List.any outs throwsOut) := by
  refine ⟨rfl, ?_⟩
  induction outs with
  | nil => rfl
  | cons o rest ih =>
    cases o with
    | acceptError => simpa [serveLoop, throwsOut] using ih
    | conn d =>
      cases d with
      | normal => simpa [serveLoop, throwsOut] using ih
      | throwTermination => simp [serveLoop, throwsOut]
      | throwOther => simp [serveLoop, throwsOut]

/-- C7: dispatching a find request that supplies only file and offset yields
bound options with the supplied file and offset and the declared defaults
mostSpecific=false, diagnostics=true, fromIndex=true, whatever values a
prior request left in the bound cells. -/
theorem find_defaults_reapplied_each_dispatch (prior : FindArgs) :
    FindCommand.dispatchBind prior
        [("file", JsonValue.str "a.cpp"), ("offset", JsonValue.int 120)] =
      some { fileName := "a.cpp", offset := 120, mostSpecific := false,
             diagnostics := true, fromIndex := true } := rfl

/-- C8: when inotify_init fails (returns -1), constructing the watcher
throws, main returns the failure exit code, and neither stdin parsing nor
serving ever happens - the discovery files are untouched and no connection
is accepted. -/
theorem inotify_failure_aborts_process (stdinOpt : Bool) (outs : List AcceptOutcome)
    (fs0 : ServeFS) :
    mainRun stdinOpt (-1) outs fs0 =
      some { exitCode := 1, fs := fs0, served := false, stdinParsed := false } := rfl

/-- C9: the watcher constructor initializes the rescan-requested flag to
true, so the first iteration of the watcher loop performs the watch-list
scan first - before handling any poll outcome - and registers a watch for
every file the storage lists. -/
theorem first_iteration_rescans_first (files : List String) (reg : String → Int)
    (poll : PollOutcome) :
    initialWatcherState.updateRequested = true ∧
    (∃ rest, (watchIteration initialWatcherState files reg poll).trace =
        WatchAction.rescan :: rest) ∧
    ∀ f ∈ files,
      ((watchIteration initialWatcherState files reg poll).inotifyMap).contains f = true := by
  refine ⟨rfl, ?_, ?_⟩
  · cases poll with
    | pollError => exact ⟨[], rfl⟩
    | noData => exact ⟨[], rfl⟩
    | readFailed => exact ⟨[], rfl⟩
    | dataReady events => exact ⟨_, rfl⟩
  · intro f hf
    cases poll <;> exact update_contains_of_mem _ files reg f hf

/-- Witness for C9 at a concrete input: one stored file and a successful
registration, polled with no pending data. -/
theorem first_iteration_rescans_first_witness :
    initialWatcherState.updateRequested = true ∧
    (∃ rest, (watchIteration initialWatcherState ["a"] (fun _ => (3 : Int))
        PollOutcome.noData).trace = WatchAction.rescan :: rest) ∧
    ∀ f ∈ ["a"],
      ((watchIteration initialWatcherState ["a"] (fun _ => (3 : Int))
        PollOutcome.noData).inotifyMap).contains f = true :=
  first_iteration_rescans_first ["a"] (fun _ => (3 : Int)) PollOutcome.noData

/-- C10: with the stdin option, main parses the request from standard input
and never constructs the server: no socket is bound, no connection is
accepted, and neither discovery file is created. -/
theorem stdin_mode_never_serves (fdRes : Int) (h : fdRes ≠ -1)
    (outs : List AcceptOutcome) (fs0 : ServeFS) :
    mainRun true fdRes outs fs0 =
      some { exitCode := 0, fs := fs0, served := false, stdinParsed := true } := by
  unfold mainRun inotifyConstruct
  rw [if_neg h]
  rfl

/-- Witness for C10 at a concrete input: inotify_init returned descriptor 0. -/
theorem stdin_mode_never_serves_witness :
    mainRun true 0 [] ⟨false, false⟩ =
      some { exitCode := 0, fs := ⟨false, false⟩, served := false, stdinParsed := true } :=
  stdin_mode_never_serves 0 (by decide) [] ⟨false, false⟩

end ClangTags
